import Mathlib

/-!
Verification of the cut-list core of the Fusion360-ExportCutlist add-in.

The Python sources are shallowly embedded:

* scalar quantities that the code compares (lengths, widths, heights, areas,
  tolerances, bounding-box coordinates) are modelled as rationals `ℚ`, which
  is exact for the floating point values the host produces and keeps every
  comparison decidable;
* direction vectors (face normals, edge orientations) are modelled over `ℝ`,
  because the host API normalizes with a real square root;
* Python exceptions are modelled with `Except PyErr`, one constructor per
  raise site; a reference to a local variable before its assignment is the
  `unboundLocalError` constructor;
* Python's stable `list.sort` is modelled by `pySort`, a stable insertion
  sort (any two stable sorts of the same total preorder agree extensionally).
-/

namespace ExportCutlist

/-! ## Stable sort: model of Python `list.sort`

Python guarantees `list.sort(key=..., reverse=...)` is a stable sort with
respect to the induced total preorder.  `sinsert le x l` inserts `x` in front
of the first element of `l` that is not strictly below `x`; `pySort` inserts
the head into the sorted tail, so an element that occurs earlier in the input
is placed in front of later elements with equal keys — exactly stability. -/

/-- Insert `x` into `l` in front of the first element `y` with
`¬ (le y x ∧ ¬ le x y)`, i.e. in front of ties and greater elements. -/
def sinsert (le : α → α → Bool) (x : α) : List α → List α
  | [] => [x]
  | y :: ys => if le y x && !le x y then y :: sinsert le x ys else x :: y :: ys

/-- Stable sort with respect to the boolean preorder `le`; extensional model
of Python `list.sort` with comparison `le`. -/
def pySort (le : α → α → Bool) : List α → List α
  | [] => []
  | x :: xs => sinsert le x (pySort le xs)

/-- Strict part of a boolean preorder. -/
def bltP (le : α → α → Bool) (a b : α) : Prop := le a b = true ∧ le b a = false

/-- Tie (equivalence) part of a boolean preorder. -/
def btieP (le : α → α → Bool) (a b : α) : Prop := le a b = true ∧ le b a = true

/-- Combined output ordering of a stable sort: consecutive elements are either
strictly ordered by `le`, or tied and then ordered as in the input (`r`). -/
def stableOut (le : α → α → Bool) (r : α → α → Prop) (a b : α) : Prop :=
  bltP le a b ∨ (btieP le a b ∧ r a b)

/-! ## Python errors

One constructor per raise site reachable from the embedded code:
* `cannotAddObject t` is `CutList.add`'s
  `ValueError(f'Cannot add object with type: {t}')`;
* `noOrientationHeuristic ct` is `get_edge_orientation`'s
  `ValueError(f'edge of type {ct} does not have an orientation heuristic')`;
* `castError s` is the `ValueError('edge does not have <s> geometry')` raised
  by the per-curve-type helpers when an API cast returns `None`;
* `unboundLocalError v` is Python's `UnboundLocalError` for reading the local
  variable `v` before its assignment. -/

inductive CurveType where
  | line3d
  | infiniteLine3d
  | arc3d
  | circle3d
  | ellipse3d
  | ellipticalArc3d
  | nurbsCurve3d
  | degenerate3d
  deriving DecidableEq, Repr

inductive PyErr where
  | cannotAddObject (objectType : String)
  | noOrientationHeuristic (curveType : CurveType)
  | castError (expected : String)
  | unboundLocalError (var : String)
  deriving DecidableEq, Repr

/-! ## Vectors (host API `adsk.core.Vector3D` / `Point3D`)

Direction vectors live over `ℝ`; `normalize` models `Vector3D.normalize`,
which scales the vector to unit length (a real square root). -/

structure Vec3 where
  x : ℝ
  y : ℝ
  z : ℝ

def Vec3.dot (a b : Vec3) : ℝ := a.x * b.x + a.y * b.y + a.z * b.z

/-- Model of `Vector3D.crossProduct`. -/
def Vec3.crossProduct (a b : Vec3) : Vec3 :=
  ⟨a.y * b.z - a.z * b.y, a.z * b.x - a.x * b.z, a.x * b.y - a.y * b.x⟩

def Vec3.normSq (a : Vec3) : ℝ := a.x * a.x + a.y * a.y + a.z * a.z

def Vec3.smul (c : ℝ) (a : Vec3) : Vec3 := ⟨c * a.x, c * a.y, c * a.z⟩

def Vec3.neg (a : Vec3) : Vec3 := ⟨-a.x, -a.y, -a.z⟩

/-- Model of `Vector3D.normalize`: scale to unit length. -/
noncomputable def Vec3.normalize (a : Vec3) : Vec3 :=
  Vec3.smul (1 / Real.sqrt a.normSq) a

/-- Model of `Point3D.vectorTo`: the vector from `a` to `b`. -/
def Vec3.vectorTo (a b : Vec3) : Vec3 := ⟨b.x - a.x, b.y - a.y, b.z - a.z⟩

/-- Body of `construct_perpedicular` in src/lib/geometry/vectors.py: zero out
a copy, find the first nonzero component index `i`, set `p[j] = v[i]` and
`p[i] = -v[j]` for `j = (i+1) % 3`, then normalize. -/
noncomputable def construct_perpedicular (v : Vec3) : Vec3 :=
  let p : Vec3 :=
    if v.x ≠ 0 then ⟨-v.y, v.x, 0⟩
    else if v.y ≠ 0 then ⟨0, -v.z, v.y⟩
    else if v.z ≠ 0 then ⟨v.z, 0, -v.x⟩
    else ⟨0, 0, 0⟩
  p.normalize

/-! ## BRep data model (host API `adsk.fusion`)

Scalars the code compares (`length`, `area`, bounding-box coordinates) are
rationals; `tempId` is the stable edge identity used by `HashableEdge`.
A `Curve3D` value carries exactly the geometric data the orientation
heuristics read, and `Curve3D.curveType` plays the role of
`edge.geometry.curveType` (in the host, the runtime class of `geometry`
always agrees with `curveType`, which this representation makes intrinsic). -/

structure Point3Q where
  x : ℚ
  y : ℚ
  z : ℚ
  deriving DecidableEq, Repr

structure BoundingBox3D where
  minPoint : Point3Q
  maxPoint : Point3Q
  deriving DecidableEq, Repr

structure Material where
  name : String
  deriving DecidableEq, Repr

inductive Curve3D where
  | line3d
  | infiniteLine3d
  | arc3d
  | circle3d (normal : Vec3)
  | ellipse3d (majorAxis : Vec3)
  | ellipticalArc3d
  | nurbsCurve3d
  | degenerate3d

/-- The `curveType` property of an `adsk.core.Curve3D`. -/
def Curve3D.curveType : Curve3D → CurveType
  | .line3d => .line3d
  | .infiniteLine3d => .infiniteLine3d
  | .arc3d => .arc3d
  | .circle3d _ => .circle3d
  | .ellipse3d _ => .ellipse3d
  | .ellipticalArc3d => .ellipticalArc3d
  | .nurbsCurve3d => .nurbsCurve3d
  | .degenerate3d => .degenerate3d

structure BRepEdge where
  tempId : ℕ
  length : ℚ
  startVertex : Vec3
  endVertex : Vec3
  geometry : Curve3D

structure BRepLoop where
  isOuter : Bool
  edges : List BRepEdge

inductive SurfaceType where
  | plane
  | cylinder
  | cone
  | sphere
  | torus
  | ellipticalCylinder
  | ellipticalCone
  | nurbs
  deriving DecidableEq, Repr

structure BRepFace where
  surfaceType : SurfaceType
  area : ℚ
  loops : List BRepLoop
  edges : List BRepEdge
  /-- Result of `face.evaluator.getNormalAtPoint(face.centroid)` (the host
  returns a success flag the source ignores, plus this normal). -/
  normalAtCentroid : Vec3

structure BRepBody where
  name : String
  isSolid : Bool
  isVisible : Bool
  material : Material
  boundingBox : BoundingBox3D
  faces : List BRepFace
  convexEdges : List BRepEdge
  /-- Host model of `TemporaryBRepManager.copy` + `transform` +
  `boundingBox`: the bounding box of a copy of the body transformed by the
  alignment of the frame (orientation, crossOrientation, normal) onto the
  world frame, as built by `setToAlignCoordinateSystems`. -/
  transformedBoundingBox : Vec3 → Vec3 → Vec3 → BoundingBox3D

/-! ## src/lib/geometry/edges.py -/

/-- Stable-identity equality key of `HashableEdge` (`__eq__`/`__hash__` use
`edge.tempId`); `edgeset` below builds Python sets of `HashableEdge`. -/
def HashableEdge.key (e : BRepEdge) : ℕ := e.tempId

/-- Body of `is_linear_edge`: curve type is `Line3D` or `InfiniteLine3D`. -/
def is_linear_edge (e : BRepEdge) : Bool :=
  e.geometry.curveType ∈ [CurveType.line3d, CurveType.infiniteLine3d]

/-- Body of `_start_end_orientation`: normalized vector from the start vertex
to the end vertex. -/
noncomputable def _start_end_orientation (e : BRepEdge) : Vec3 :=
  (e.startVertex.vectorTo e.endVertex).normalize

/-- Body of `_get_arc3d_orientation`: cast to `Arc3D`, then start-to-end. -/
noncomputable def _get_arc3d_orientation (e : BRepEdge) : Except PyErr Vec3 :=
  match e.geometry with
  | .arc3d => .ok (_start_end_orientation e)
  | _ => .error (.castError "Arc3D")

/-- Body of `_get_circle3d_orientation`: cast to `Circle3D`, then a
perpendicular of the circle normal. -/
noncomputable def _get_circle3d_orientation (e : BRepEdge) : Except PyErr Vec3 :=
  match e.geometry with
  | .circle3d normal => .ok (construct_perpedicular normal)
  | _ => .error (.castError "Circle3D")

/-- Body of `_get_ellipse3d_orientation`: cast to `Ellipse3D`, then the
normalized major axis. -/
noncomputable def _get_ellipse3d_orientation (e : BRepEdge) : Except PyErr Vec3 :=
  match e.geometry with
  | .ellipse3d majorAxis => .ok majorAxis.normalize
  | _ => .error (.castError "Ellipse3D")

/-- Body of `_get_ellipticalarc3d_orientation`: cast, then start-to-end. -/
noncomputable def _get_ellipticalarc3d_orientation (e : BRepEdge) : Except PyErr Vec3 :=
  match e.geometry with
  | .ellipticalArc3d => .ok (_start_end_orientation e)
  | _ => .error (.castError "EllipticalArc3D")

/-- Body of `_get_infiniteline3d_orientation`: cast, then start-to-end. -/
noncomputable def _get_infiniteline3d_orientation (e : BRepEdge) : Except PyErr Vec3 :=
  match e.geometry with
  | .infiniteLine3d => .ok (_start_end_orientation e)
  | _ => .error (.castError "InfiniteLine3D")

/-- Body of `_get_line3d_orientation`: cast to `Line3D`, then start-to-end. -/
noncomputable def _get_line3d_orientation (e : BRepEdge) : Except PyErr Vec3 :=
  match e.geometry with
  | .line3d => .ok (_start_end_orientation e)
  | _ => .error (.castError "Line3D")

/-- The `_orientable_curve_types` dispatch dictionary: curve types that have
an orientation heuristic, mapped to their heuristic. -/
noncomputable def _orientable_curve_types :
    CurveType → Option (BRepEdge → Except PyErr Vec3)
  | .arc3d => some _get_arc3d_orientation
  | .circle3d => some _get_circle3d_orientation
  | .ellipse3d => some _get_ellipse3d_orientation
  | .ellipticalArc3d => some _get_ellipticalarc3d_orientation
  | .infiniteLine3d => some _get_infiniteline3d_orientation
  | .line3d => some _get_line3d_orientation
  | .nurbsCurve3d => none
  | .degenerate3d => none

/-- Body of `is_orientable_edge`: membership of the curve type in the
`_orientable_curve_types` dictionary. -/
def is_orientable_edge (e : BRepEdge) : Bool :=
  e.geometry.curveType ∈
    [CurveType.arc3d, CurveType.circle3d, CurveType.ellipse3d,
     CurveType.ellipticalArc3d, CurveType.infiniteLine3d, CurveType.line3d]

/-- Body of `get_edge_orientation`: look the curve type up in the dispatch
dictionary; raise `ValueError` if absent, otherwise apply the heuristic. -/
noncomputable def get_edge_orientation (e : BRepEdge) : Except PyErr Vec3 :=
  match _orientable_curve_types e.geometry.curveType with
  | none => .error (.noOrientationHeuristic e.geometry.curveType)
  | some fn => fn e

/-! ## src/lib/geometry/bodies.py -/

structure MinimalBody where
  body : BRepBody
  /-- The `bbox` attribute: the explicit bounding box when one was passed to
  `MinimalBody.__init__`, else `body.boundingBox`. -/
  bbox : BoundingBox3D

/-- Body of `MinimalBody.__init__` with `bbox=None`. -/
def MinimalBody.of (body : BRepBody) : MinimalBody := ⟨body, body.boundingBox⟩

/-- The `material` property of `MinimalBody`. -/
def MinimalBody.material (mb : MinimalBody) : Material := mb.body.material

/-- The `boundingBox` property of `MinimalBody`. -/
def MinimalBody.boundingBox (mb : MinimalBody) : BoundingBox3D := mb.bbox

/-- Body of `get_outer_edges`: the edges of all outer loops of the face. -/
def get_outer_edges (face : BRepFace) : List BRepEdge :=
  face.loops.flatMap (fun loop => if loop.isOuter then loop.edges else [])

/-- Body of `edgeset`: the Python `set` of `HashableEdge`s, i.e. the set of
stable edge identities. -/
def edgeset (edges : List BRepEdge) : Finset ℕ :=
  (edges.map HashableEdge.key).toFinset

/-- Body of `is_planar_face`: the face is a plane and all of its outer edges
appear in the set `edges`. -/
def is_planar_face (face : BRepFace) (edges : Finset ℕ) : Bool :=
  if face.surfaceType = SurfaceType.plane then
    edgeset (get_outer_edges face) ⊆ edges
  else
    false

/-- Loop body of `find_largest_planar_convex_face`: skip non-planar-convex
faces; keep `f` when there is no candidate yet or `f.area` is larger. -/
def largest_face_step (convex_edges : Finset ℕ) (largest_face : Option BRepFace)
    (f : BRepFace) : Option BRepFace :=
  if ¬ is_planar_face f convex_edges then largest_face
  else
    match largest_face with
    | none => some f
    | some g => if f.area > g.area then some f else some g

/-- Body of `find_largest_planar_convex_face`: fold of the loop above over
`body.faces`, starting from `largest_face = None`. -/
def find_largest_planar_convex_face (body : BRepBody) : Option BRepFace :=
  let convex_edges := edgeset body.convexEdges
  body.faces.foldl (largest_face_step convex_edges) none

/-- Loop body of `find_longest_orientable_edge`: the accumulator is the pair
(longest linear edge so far, longest orientable nonlinear edge so far). -/
def longest_edge_step (acc : Option BRepEdge × Option BRepEdge) (e : BRepEdge) :
    Option BRepEdge × Option BRepEdge :=
  if is_linear_edge e then
    match acc.1 with
    | none => (some e, acc.2)
    | some l => if e.length > l.length then (some e, acc.2) else acc
  else if is_orientable_edge e then
    match acc.2 with
    | none => (acc.1, some e)
    | some l => if e.length > l.length then (acc.1, some e) else acc
  else acc

/-- Body of `find_longest_orientable_edge`: fold the loop over `face.edges`;
return the longest linear edge if any, else the longest orientable edge. -/
def find_longest_orientable_edge (face : BRepFace) : Option BRepEdge :=
  let acc := face.edges.foldl longest_edge_step (none, none)
  match acc.1 with
  | some l => some l
  | none => acc.2

/-- Body of `get_minimal_body`, with Python local-variable semantics: in the
source, `target_x` is assigned only after the orientation branch, so the
`else: orientation = target_x` branch reads an unassigned local and raises
`UnboundLocalError`. -/
noncomputable def get_minimal_body (body : BRepBody) : Except PyErr MinimalBody :=
  match find_largest_planar_convex_face body with
  | none => .ok (MinimalBody.of body)
  | some face =>
    let normal := face.normalAtCentroid
    match find_longest_orientable_edge face with
    | none => .error (.unboundLocalError "target_x")
    | some edge => do
      let orientation ← get_edge_orientation edge
      let cross_orientation := (orientation.crossProduct normal).normalize
      .ok ⟨body, body.transformedBoundingBox orientation cross_orientation normal⟩

/-! ## src/ExportCutlist.py

`Dimensions.__init__` sorts the three extents ascending and stores the
largest as `length`, the middle as `width`, the smallest as `height`.
`Dimensions.__eq__` compares componentwise with a strict absolute tolerance
(`Dimensions.tolerance`, a class attribute, default `1e-4`); the tolerance is
threaded here as an explicit parameter `tol`. -/

/-- Default value of the `Dimensions.tolerance` class attribute (`1e-04`). -/
def DEFAULT_TOLERANCE : ℚ := 1 / 10000

structure Dimensions where
  length : ℚ
  width : ℚ
  height : ℚ
  deriving DecidableEq, Repr

/-- Body of `Dimensions.__init__`: `ordered = tuple(sorted((x, y, z)))`;
`length`, `width`, `height` are `ordered[2]`, `ordered[1]`, `ordered[0]`. -/
def Dimensions.make (x y z : ℚ) : Dimensions :=
  let ordered := [x, y, z].insertionSort (· ≤ ·)
  { length := ordered.getD 2 0, width := ordered.getD 1 0, height := ordered.getD 0 0 }

/-- Body of `Dimensions.from_body`: the componentwise extents of the bounding
box of the (minimal) body, passed to the constructor. -/
def Dimensions.from_body (mb : MinimalBody) : Dimensions :=
  let bbox := mb.boundingBox
  Dimensions.make (bbox.maxPoint.x - bbox.minPoint.x) (bbox.maxPoint.y - bbox.minPoint.y)
    (bbox.maxPoint.z - bbox.minPoint.z)

/-- Body of `Dimensions.__eq__` (the `Dimensions`-vs-`Dimensions` branch):
each component must differ by strictly less than the tolerance. -/
def Dimensions.eq (tol : ℚ) (a b : Dimensions) : Bool :=
  |a.length - b.length| < tol && |a.width - b.width| < tol && |a.height - b.height| < tol

structure CutListItem where
  names : List String
  dimensions : Dimensions
  material : String
  deriving DecidableEq, Repr

/-- Body of `CutListItem.__init__`: one instance name, the dimensions of the
body, the body's material name. -/
def CutListItem.ofBody (mb : MinimalBody) (name : String) : CutListItem :=
  { names := [name], dimensions := Dimensions.from_body mb, material := mb.material.name }

/-- The `count` property: the number of recorded instance names. -/
def CutListItem.count (item : CutListItem) : ℕ := item.names.length

/-- Body of `CutListItem.matches` in the `MinimalBody` branch (the branch
`CutList.add_body` exercises): dimensions equal within tolerance, and —
unless `ignorematerial` — equal material names. -/
def CutListItem.matches (tol : ℚ) (item : CutListItem) (other : MinimalBody)
    (ignorematerial : Bool) : Bool :=
  Dimensions.eq tol item.dimensions (Dimensions.from_body other) &&
    (ignorematerial || item.material == other.material.name)

/-- Body of `CutListItem.add_instance`: append the instance name. -/
def CutListItem.add_instance (item : CutListItem) (name : String) : CutListItem :=
  { item with names := item.names ++ [name] }

structure CutList where
  items : List CutListItem
  ignorehidden : Bool
  ignorematerial : Bool
  ignoreexternal : Bool
  axisaligned : Bool
  namesep : String

/-- The `for item in self.items: ... break` loop of `CutList.add_body`:
returns the mutated items when some item matched (first match wins), and
`none` when the loop finished with `added = False`. -/
def add_body_loop (tol : ℚ) (ignorematerial : Bool) (mb : MinimalBody) (name : String) :
    List CutListItem → Option (List CutListItem)
  | [] => none
  | item :: rest =>
    if item.matches tol mb ignorematerial then
      some (item.add_instance name :: rest)
    else
      (add_body_loop tol ignorematerial mb name rest).map (item :: ·)

/-- The minimal-body selection of `CutList.add_body`: the raw body when
`axisaligned`, else the canonical-bounding-box computation. -/
noncomputable def CutList.minimalBody (c : CutList) (body : BRepBody) :
    Except PyErr MinimalBody :=
  if c.axisaligned then .ok (MinimalBody.of body) else get_minimal_body body

/-- Body of `CutList.add_body`: skip non-solid bodies; skip hidden bodies
when `ignorehidden`; compute the minimal body; fold it into `items`. -/
noncomputable def CutList.add_body (tol : ℚ) (c : CutList) (body : BRepBody)
    (name : String) : Except PyErr CutList :=
  if ¬ body.isSolid then .ok c
  else if ¬ body.isVisible ∧ c.ignorehidden then .ok c
  else do
    let minimal_body ← c.minimalBody body
    match add_body_loop tol c.ignorematerial minimal_body name c.items with
    | some items => .ok { c with items := items }
    | none => .ok { c with items := c.items ++ [CutListItem.ofBody minimal_body name] }

/-- Body of `CutList._joinname`: join the non-empty parts with the name
separator (Python filters falsy parts, i.e. `None` and empty strings; a
missing `None` argument is represented by `""`). -/
def CutList.joinname (c : CutList) (parts : List String) : String :=
  String.intercalate c.namesep (parts.filter (fun p => p ≠ ""))

/-! ## Entity tree (`adsk.fusion.Occurrence` / `Component`) and `CutList.add` -/

mutual
inductive Component where
  | mk (name : String) (bRepBodies : List BRepBody) (occurrences : List Occurrence)
inductive Occurrence where
  | mk (component : Component) (isReferencedComponent : Bool)
      (bRepBodies : List BRepBody) (childOccurrences : List Occurrence)
end

def Component.name : Component → String
  | .mk n _ _ => n

def Component.bRepBodies : Component → List BRepBody
  | .mk _ bs _ => bs

def Component.occurrences : Component → List Occurrence
  | .mk _ _ os => os

def Occurrence.component : Occurrence → Component
  | .mk c _ _ _ => c

def Occurrence.isReferencedComponent : Occurrence → Bool
  | .mk _ r _ _ => r

def Occurrence.bRepBodies : Occurrence → List BRepBody
  | .mk _ _ bs _ => bs

def Occurrence.childOccurrences : Occurrence → List Occurrence
  | .mk _ _ _ cs => cs

/-- The dynamic entity argument of `CutList.add`; `other` carries the
`objectType` string of an entity that is none of the three supported kinds. -/
inductive Entity where
  | body (b : BRepBody)
  | occurrence (o : Occurrence)
  | component (comp : Component)
  | other (objectType : String)

/-- Body of `CutList.add`: dispatch on the entity kind; bodies are folded in
directly, occurrences and components recurse into their bodies and child
occurrences with an extended name prefix; any other kind raises
`ValueError(f'Cannot add object with type: {obj.objectType}')`. -/
noncomputable def CutList.add (tol : ℚ) (c : CutList) (obj : Entity) (name : String) :
    Except PyErr CutList :=
  match obj with
  | .body b => c.add_body tol b (c.joinname [name, b.name])
  | .occurrence o =>
    if o.isReferencedComponent && c.ignoreexternal then .ok c
    else do
      let c1 ← o.bRepBodies.foldlM
        (fun (s : CutList) b => s.add_body tol b (s.joinname [name, o.component.name, b.name])) c
      o.childOccurrences.attach.foldlM
        (fun (s : CutList) child =>
          CutList.add tol s (.occurrence child.1) (s.joinname [name, o.component.name])) c1
  | .component comp => do
    let c1 ← comp.bRepBodies.foldlM
      (fun (s : CutList) b => s.add_body tol b (s.joinname [name, comp.name, b.name])) c
    comp.occurrences.attach.foldlM
      (fun (s : CutList) occ =>
        CutList.add tol s (.occurrence occ.1) (s.joinname [name, comp.name])) c1
  | .other t => .error (.cannotAddObject t)
termination_by sizeOf obj
decreasing_by
  · simp only [Entity.occurrence.sizeOf_spec]
    have := List.sizeOf_lt_of_mem child.2
    have h2 : sizeOf child.1 < sizeOf o := by
      cases o with
      | mk comp r bs cs =>
        simp only [Occurrence.childOccurrences] at this
        simp only [Occurrence.mk.sizeOf_spec]
        omega
    omega
  · simp only [Entity.component.sizeOf_spec, Entity.occurrence.sizeOf_spec]
    have := List.sizeOf_lt_of_mem occ.2
    have h2 : sizeOf occ.1 < sizeOf comp := by
      cases comp with
      | mk n bs os =>
        simp only [Component.occurrences] at this
        simp only [Component.mk.sizeOf_spec]
        omega
    omega

/-! ## `CutList.sorted_items`

The source copies `self.items` and performs three successive stable in-place
sorts: descending by the (length, width, height) triple, then descending by
count, then ascending by material. -/

/-- The Python lexicographic order on the `(length, width, height)` key
tuples produced by `attrgetter`. -/
def dimKeyLe (p q : ℚ × ℚ × ℚ) : Bool :=
  decide (p.1 < q.1 ∨ (p.1 = q.1 ∧ (p.2.1 < q.2.1 ∨ (p.2.1 = q.2.1 ∧ p.2.2 ≤ q.2.2))))

/-- The `(length, width, height)` sort key of an item. -/
def CutListItem.dimKey (i : CutListItem) : ℚ × ℚ × ℚ :=
  (i.dimensions.length, i.dimensions.width, i.dimensions.height)

/-- Comparison of the first sort pass (`key=(length, width, height)`,
`reverse=True`): `a` may precede `b` iff `b`'s key is at most `a`'s. -/
def dimsSortLe (a b : CutListItem) : Bool := dimKeyLe b.dimKey a.dimKey

/-- Comparison of the second sort pass (`key=count`, `reverse=True`). -/
def countSortLe (a b : CutListItem) : Bool := decide (b.count ≤ a.count)

/-- Comparison of the third sort pass (`key=material`, ascending). -/
def materialSortLe (a b : CutListItem) : Bool := decide (a.material ≤ b.material)

/-- Body of `CutList.sorted_items`: copy `self.items` and apply the three
stable sorts (last-applied key is the primary one). -/
def CutList.sorted_items (c : CutList) : List CutListItem :=
  pySort materialSortLe (pySort countSortLe (pySort dimsSortLe c.items))

/-- The multi-key output ordering the spec describes for `sorted_items`:
primary ascending material, secondary descending count, tertiary descending
dimension triple, and — per stability — ties in full key keep the relative
input order `r`. -/
def specSortedOrder (r : CutListItem → CutListItem → Prop) (a b : CutListItem) : Prop :=
  stableOut materialSortLe (stableOut countSortLe (stableOut dimsSortLe r)) a b

/-- Python-heap model of `sorted_items` for the frame claim: `heap` holds the
contents of every allocated Python list object of items, and a `CutList`'s
`items` attribute is a reference `itemsRef` into it.  `items = list(self.items)`
allocates a fresh cell holding a copy; the three `sort` calls mutate only the
fresh cell; the reference of the returned list is the fresh cell. -/
def CutList.sorted_items_heap (heap : List (List CutListItem)) (itemsRef : ℕ) :
    List (List CutListItem) × ℕ :=
  let items := heap.getD itemsRef []
  let newRef := heap.length
  let heap1 := heap ++ [items]
  let heap2 := heap1.set newRef (pySort dimsSortLe (heap1.getD newRef []))
  let heap3 := heap2.set newRef (pySort countSortLe (heap2.getD newRef []))
  let heap4 := heap3.set newRef (pySort materialSortLe (heap3.getD newRef []))
  (heap4, newRef)

/-! ## Concrete test fixtures (used by witness theorems) -/

/-- Test fixture: an edge whose curve type has no orientation heuristic. -/
def nurbsEdge : BRepEdge :=
  { tempId := 1, length := 1, startVertex := ⟨0, 0, 0⟩, endVertex := ⟨1, 0, 0⟩,
    geometry := .nurbsCurve3d }

/-- Test fixture: a planar face bounded by a single (convex) NURBS edge, so
it qualifies as the largest planar convex face but has no orientable edge. -/
def planarFaceNoOrientable : BRepFace :=
  { surfaceType := .plane, area := 1, loops := [⟨true, [nurbsEdge]⟩],
    edges := [nurbsEdge], normalAtCentroid := ⟨0, 0, 1⟩ }

def bboxUnit : BoundingBox3D := ⟨⟨0, 0, 0⟩, ⟨1, 1, 1⟩⟩

/-- Test fixture: a solid body whose only face is `planarFaceNoOrientable`;
`get_minimal_body` finds the face, finds no orientable edge, and hits the
`orientation = target_x` branch. -/
def bodyNoOrientableEdge : BRepBody :=
  { name := "Body1", isSolid := true, isVisible := true, material := ⟨"Steel"⟩,
    boundingBox := bboxUnit, faces := [planarFaceNoOrientable],
    convexEdges := [nurbsEdge], transformedBoundingBox := fun _ _ _ => bboxUnit }

/-- Test fixture: a line edge. -/
def lineEdge : BRepEdge :=
  { tempId := 2, length := 1, startVertex := ⟨0, 0, 0⟩, endVertex := ⟨1, 0, 0⟩,
    geometry := .line3d }

/-- Test fixture: a planar face with a single line edge. -/
def faceWithLineEdge : BRepFace :=
  { surfaceType := .plane, area := 1, loops := [⟨true, [lineEdge]⟩],
    edges := [lineEdge], normalAtCentroid := ⟨0, 0, 1⟩ }

/-- Test fixture: a solid body with one planar convex face with a line edge. -/
def bodyWithLineEdge : BRepBody :=
  { name := "Body2", isSolid := true, isVisible := true, material := ⟨"Wood"⟩,
    boundingBox := bboxUnit, faces := [faceWithLineEdge],
    convexEdges := [lineEdge], transformedBoundingBox := fun _ _ _ => bboxUnit }

def itemA : CutListItem := { names := ["a"], dimensions := ⟨3, 2, 1⟩, material := "Wood" }

def itemB : CutListItem := { names := ["b"], dimensions := ⟨4, 2, 1⟩, material := "Alder" }

/-- Test fixture: a two-item cut list. -/
def cutlistW : CutList :=
  { items := [itemA, itemB], ignorehidden := false, ignorematerial := false,
    ignoreexternal := false, axisaligned := false, namesep := "/" }

/-- Test fixture: an empty cut list in axis-aligned mode. -/
def cutlistAA : CutList :=
  { items := [], ignorehidden := false, ignorematerial := false,
    ignoreexternal := false, axisaligned := true, namesep := "/" }

/-! ## Theorems — stable sort -/

theorem sinsert_perm (le : α → α → Bool) (x : α) (l : List α) :
    (sinsert le x l).Perm (x :: l) := by
  induction l with
  | nil => simp [sinsert]
  | cons y ys ih =>
    simp only [sinsert]
    by_cases h : (le y x && !le x y) = true
    · rw [if_pos h]
      exact ((ih.cons y).trans (List.Perm.swap x y ys))
    · rw [if_neg h]

theorem pySort_perm (le : α → α → Bool) (l : List α) :
    (pySort le l).Perm l := by
  induction l with
  | nil => simp [pySort]
  | cons x xs ih =>
    exact (sinsert_perm le x (pySort le xs)).trans (ih.cons x)

theorem stableOut_le {le : α → α → Bool} {r : α → α → Prop} {a b : α}
    (h : stableOut le r a b) : le a b = true := by
  rcases h with h | h
  · exact h.1
  · exact h.1.1

theorem sinsert_pairwise {le : α → α → Bool} {r : α → α → Prop}
    (htot : ∀ a b, le a b = true ∨ le b a = true)
    (htrans : ∀ a b c, le a b = true → le b c = true → le a c = true)
    {x : α} {S : List α}
    (hS : S.Pairwise (stableOut le r))
    (hx : ∀ y ∈ S, r x y) :
    (sinsert le x S).Pairwise (stableOut le r) := by
  induction S with
  | nil => simp [sinsert]
  | cons y ys ih =>
    have hSy := List.pairwise_cons.mp hS
    simp only [sinsert]
    by_cases h : (le y x && !le x y) = true
    · rw [if_pos h]
      have h' : le y x = true ∧ le x y = false := by
        simpa [Bool.and_eq_true] using h
      refine List.pairwise_cons.mpr ⟨?_, ih hSy.2 (fun z hz => hx z (List.mem_cons_of_mem y hz))⟩
      intro z hz
      have hz' : z ∈ x :: ys := (sinsert_perm le x ys).mem_iff.mp hz
      rcases List.mem_cons.mp hz' with rfl | hz''
      · exact Or.inl ⟨h'.1, h'.2⟩
      · exact hSy.1 z hz''
    · rw [if_neg h]
      -- here `x` is inserted in front of `y :: ys`
      have hxy : le x y = true := by
        rcases htot x y with h1 | h1
        · exact h1
        · by_cases h2 : le x y = true
          · exact h2
          · exfalso
            apply h
            have h2' : le x y = false := by
              cases hb : le x y
              · rfl
              · exact absurd hb h2
            simp [h1, h2']
      refine List.pairwise_cons.mpr ⟨?_, hS⟩
      intro z hz
      have hxz : le x z = true := by
        rcases List.mem_cons.mp hz with rfl | hz'
        · exact hxy
        · exact htrans x y z hxy (stableOut_le (hSy.1 z hz'))
      by_cases hzx : le z x = true
      · exact Or.inr ⟨⟨hxz, hzx⟩, hx z hz⟩
      · refine Or.inl ⟨hxz, ?_⟩
        cases hb : le z x
        · rfl
        · exact absurd hb hzx

/-- Stability/refinement property of `pySort`: if the input is pairwise `r`
(for instance, `r` = original order of any list), then in the output
consecutive elements are strictly `le`-ordered, or tied and `r`-ordered. -/
theorem pySort_pairwise {le : α → α → Bool} {r : α → α → Prop}
    (htot : ∀ a b, le a b = true ∨ le b a = true)
    (htrans : ∀ a b c, le a b = true → le b c = true → le a c = true)
    {l : List α} (hl : l.Pairwise r) :
    (pySort le l).Pairwise (stableOut le r) := by
  induction l with
  | nil => simp [pySort]
  | cons x xs ih =>
    have hxs := List.pairwise_cons.mp hl
    have hmem : ∀ y ∈ pySort le xs, r x y := by
      intro y hy
      exact hxs.1 y ((pySort_perm le xs).mem_iff.mp hy)
    exact sinsert_pairwise htot htrans (ih hxs.2) hmem

/-- Sortedness of `pySort` for a total transitive boolean preorder. -/
theorem pySort_sorted {le : α → α → Bool}
    (htot : ∀ a b, le a b = true ∨ le b a = true)
    (htrans : ∀ a b c, le a b = true → le b c = true → le a c = true)
    (l : List α) :
    (pySort le l).Pairwise (fun a b => le a b = true) := by
  have h := pySort_pairwise (r := fun _ _ => True) htot htrans
    (l := l) (List.pairwise_iff_forall_sublist.mpr (fun _ => trivial))
  exact h.imp (fun hab => stableOut_le hab)

/-! ## Theorems — Dimensions -/

theorem sortTriple_eq_of_perm {x y z x' y' z' : ℚ}
    (h : List.Perm [x, y, z] [x', y', z']) :
    [x, y, z].insertionSort (· ≤ ·) = [x', y', z'].insertionSort (· ≤ ·) :=
  List.eq_of_perm_of_sorted
    ((List.perm_insertionSort _ _).trans (h.trans (List.perm_insertionSort _ _).symm))
    (List.sorted_insertionSort _ _) (List.sorted_insertionSort _ _)

theorem dimensions_make_eq_of_perm {x y z x' y' z' : ℚ}
    (h : List.Perm [x, y, z] [x', y', z']) :
    Dimensions.make x y z = Dimensions.make x' y' z' := by
  simp only [Dimensions.make, sortTriple_eq_of_perm h]

theorem dimensions_make_ordered (x y z : ℚ) :
    (Dimensions.make x y z).width ≤ (Dimensions.make x y z).length ∧
    (Dimensions.make x y z).height ≤ (Dimensions.make x y z).width := by
  simp only [Dimensions.make, List.insertionSort, List.orderedInsert]
  by_cases h1 : y ≤ z <;> by_cases h2 : x ≤ y <;> by_cases h3 : x ≤ z <;>
    simp only [h1, h2, h3, if_true, if_false, ite_true, ite_false, List.orderedInsert,
      List.getD_cons_zero, List.getD_cons_succ] <;>
    first
      | trivial
      | linarith
      | (constructor <;> first | trivial | linarith)

/-- C7: for every extents triple (x, y, z) taken from a bounding box, the
constructed `Dimensions` satisfies length ≥ width ≥ height, and constructing
`Dimensions` from any permutation of (x, y, z) yields the same
(length, width, height) triple. -/
theorem dimensions_sorted_and_permutation_invariant (mb : MinimalBody) (x y z : ℚ) :
    ((Dimensions.from_body mb).width ≤ (Dimensions.from_body mb).length ∧
     (Dimensions.from_body mb).height ≤ (Dimensions.from_body mb).width) ∧
    ((Dimensions.make x y z).width ≤ (Dimensions.make x y z).length ∧
     (Dimensions.make x y z).height ≤ (Dimensions.make x y z).width) ∧
    (Dimensions.make x z y = Dimensions.make x y z ∧
     Dimensions.make y x z = Dimensions.make x y z ∧
     Dimensions.make y z x = Dimensions.make x y z ∧
     Dimensions.make z x y = Dimensions.make x y z ∧
     Dimensions.make z y x = Dimensions.make x y z) := by
  refine ⟨?_, dimensions_make_ordered x y z, ?_, ?_, ?_, ?_, ?_⟩
  · exact dimensions_make_ordered _ _ _
  · exact dimensions_make_eq_of_perm ((List.Perm.swap y z []).cons x)
  · exact dimensions_make_eq_of_perm (List.Perm.swap x y [z])
  · exact dimensions_make_eq_of_perm
      (((List.Perm.swap x z []).cons y).trans (List.Perm.swap x y [z]))
  · exact dimensions_make_eq_of_perm
      ((List.Perm.swap x z [y]).trans ((List.Perm.swap y z []).cons x))
  · exact dimensions_make_eq_of_perm
      (((List.Perm.swap y z [x]).trans ((List.Perm.swap x z []).cons y)).trans
        (List.Perm.swap x y [z]))

/-- C5 counterexample: the claimed non-transitivity triple with a gap of at
least twice the tolerance cannot exist — already at the default tolerance,
two tolerance-equalities force every componentwise gap strictly below twice
the tolerance, so the claim as stated is false. -/
theorem dimensions_eq_two_tol_gap_impossible :
    ¬ ∃ A B C : Dimensions,
        Dimensions.eq DEFAULT_TOLERANCE A B = true ∧
        Dimensions.eq DEFAULT_TOLERANCE B C = true ∧
        Dimensions.eq DEFAULT_TOLERANCE A C = false ∧
        (2 * DEFAULT_TOLERANCE ≤ |A.length - C.length| ∨
         2 * DEFAULT_TOLERANCE ≤ |A.width - C.width| ∨
         2 * DEFAULT_TOLERANCE ≤ |A.height - C.height|) := by
  rintro ⟨A, B, C, hAB, hBC, _, hgap⟩
  simp only [Dimensions.eq, Bool.and_eq_true, decide_eq_true_eq] at hAB hBC
  have tl := abs_sub_le A.length B.length C.length
  have tw := abs_sub_le A.width B.width C.width
  have th := abs_sub_le A.height B.height C.height
  rcases hgap with h | h | h <;> linarith [hAB.1.1, hAB.1.2, hAB.2, hBC.1.1, hBC.1.2, hBC.2]

/-- C5 (amended): with a positive tolerance, `Dimensions` equality is
reflexive and symmetric but not transitive — there are A, B, C with A≈B and
B≈C but A≉C, where A and C differ by at least the tolerance (necessarily
strictly less than twice the tolerance) in some component. -/
theorem dimensions_eq_refl_symm_not_trans (tol : ℚ) (hpos : 0 < tol) :
    (∀ A : Dimensions, Dimensions.eq tol A A = true) ∧
    (∀ A B : Dimensions, Dimensions.eq tol A B = Dimensions.eq tol B A) ∧
    (∃ A B C : Dimensions,
        Dimensions.eq tol A B = true ∧ Dimensions.eq tol B C = true ∧
        Dimensions.eq tol A C = false ∧ tol ≤ |A.length - C.length|) := by
  refine ⟨?_, ?_, ?_⟩
  · intro A
    simp [Dimensions.eq, hpos]
  · intro A B
    simp only [Dimensions.eq]
    rw [abs_sub_comm A.length B.length, abs_sub_comm A.width B.width,
      abs_sub_comm A.height B.height]
  · refine ⟨⟨0, 0, 0⟩, ⟨9 * tol / 10, 9 * tol / 10, 9 * tol / 10⟩,
      ⟨9 * tol / 5, 9 * tol / 5, 9 * tol / 5⟩, ?_, ?_, ?_, ?_⟩
    · simp only [Dimensions.eq, Bool.and_eq_true, decide_eq_true_eq]
      have h09 : |(0 : ℚ) - 9 * tol / 10| = 9 * tol / 10 := by
        rw [zero_sub, abs_neg]
        exact abs_of_pos (by linarith)
      rw [h09]
      refine ⟨⟨?_, ?_⟩, ?_⟩ <;> linarith
    · simp only [Dimensions.eq, Bool.and_eq_true, decide_eq_true_eq]
      have : |9 * tol / 10 - 9 * tol / 5| = 9 * tol / 10 := by
        rw [abs_of_nonpos (by linarith)]
        ring
      rw [this]
      refine ⟨⟨?_, ?_⟩, ?_⟩ <;> linarith
    · simp only [Dimensions.eq, Bool.and_eq_true, decide_eq_true_eq]
      have : |(0 : ℚ) - 9 * tol / 5| = 9 * tol / 5 := by
        rw [zero_sub, abs_neg, abs_of_pos (by linarith)]
      simp only [Bool.and_eq_false_iff, decide_eq_false_iff_not, not_lt]
      left
      left
      rw [this]
      linarith
    · have : |(0 : ℚ) - 9 * tol / 5| = 9 * tol / 5 := by
        rw [zero_sub, abs_neg, abs_of_pos (by linarith)]
      rw [this]
      linarith

/-- C5 witness: the amended theorem applied at the default tolerance. -/
theorem dimensions_eq_refl_symm_not_trans_witness :
    0 < DEFAULT_TOLERANCE ∧
    ((∀ A : Dimensions, Dimensions.eq DEFAULT_TOLERANCE A A = true) ∧
     (∀ A B : Dimensions,
        Dimensions.eq DEFAULT_TOLERANCE A B = Dimensions.eq DEFAULT_TOLERANCE B A) ∧
     (∃ A B C : Dimensions,
        Dimensions.eq DEFAULT_TOLERANCE A B = true ∧
        Dimensions.eq DEFAULT_TOLERANCE B C = true ∧
        Dimensions.eq DEFAULT_TOLERANCE A C = false ∧
        DEFAULT_TOLERANCE ≤ |A.length - C.length|)) :=
  ⟨by norm_num [DEFAULT_TOLERANCE],
   dimensions_eq_refl_symm_not_trans DEFAULT_TOLERANCE (by norm_num [DEFAULT_TOLERANCE])⟩

/-! ## Theorems — sorted_items (C3, C10) -/

theorem dimKeyLe_total (p q : ℚ × ℚ × ℚ) : dimKeyLe p q = true ∨ dimKeyLe q p = true := by
  simp only [dimKeyLe, decide_eq_true_eq]
  rcases lt_trichotomy p.1 q.1 with h | h | h
  · exact Or.inl (Or.inl h)
  · rcases lt_trichotomy p.2.1 q.2.1 with h2 | h2 | h2
    · exact Or.inl (Or.inr ⟨h, Or.inl h2⟩)
    · rcases le_total p.2.2 q.2.2 with h3 | h3
      · exact Or.inl (Or.inr ⟨h, Or.inr ⟨h2, h3⟩⟩)
      · exact Or.inr (Or.inr ⟨h.symm, Or.inr ⟨h2.symm, h3⟩⟩)
    · exact Or.inr (Or.inr ⟨h.symm, Or.inl h2⟩)
  · exact Or.inr (Or.inl h)

theorem dimKeyLe_trans {p q r : ℚ × ℚ × ℚ}
    (h1 : dimKeyLe p q = true) (h2 : dimKeyLe q r = true) : dimKeyLe p r = true := by
  simp only [dimKeyLe, decide_eq_true_eq] at h1 h2 ⊢
  rcases h1 with h1 | ⟨h1e, h1'⟩
  · rcases h2 with h2 | ⟨h2e, _⟩
    · exact Or.inl (h1.trans h2)
    · exact Or.inl (h2e ▸ h1)
  · rcases h2 with h2 | ⟨h2e, h2'⟩
    · exact Or.inl (h1e ▸ h2)
    · refine Or.inr ⟨h1e.trans h2e, ?_⟩
      rcases h1' with h1' | ⟨h1e', h1''⟩
      · rcases h2' with h2' | ⟨h2e', _⟩
        · exact Or.inl (h1'.trans h2')
        · exact Or.inl (h2e' ▸ h1')
      · rcases h2' with h2' | ⟨h2e', h2''⟩
        · exact Or.inl (h1e' ▸ h2')
        · exact Or.inr ⟨h1e'.trans h2e', h1''.trans h2''⟩

theorem dimsSortLe_total (a b : CutListItem) :
    dimsSortLe a b = true ∨ dimsSortLe b a = true :=
  dimKeyLe_total b.dimKey a.dimKey

theorem dimsSortLe_trans (a b c : CutListItem)
    (h1 : dimsSortLe a b = true) (h2 : dimsSortLe b c = true) : dimsSortLe a c = true :=
  dimKeyLe_trans h2 h1

theorem countSortLe_total (a b : CutListItem) :
    countSortLe a b = true ∨ countSortLe b a = true := by
  simp only [countSortLe, decide_eq_true_eq]
  exact (le_total b.count a.count)

theorem countSortLe_trans (a b c : CutListItem)
    (h1 : countSortLe a b = true) (h2 : countSortLe b c = true) : countSortLe a c = true := by
  simp only [countSortLe, decide_eq_true_eq] at h1 h2 ⊢
  exact h2.trans h1

theorem materialSortLe_total (a b : CutListItem) :
    materialSortLe a b = true ∨ materialSortLe b a = true := by
  simp only [materialSortLe, decide_eq_true_eq]
  exact le_total a.material b.material

theorem materialSortLe_trans (a b c : CutListItem)
    (h1 : materialSortLe a b = true) (h2 : materialSortLe b c = true) :
    materialSortLe a c = true := by
  simp only [materialSortLe, decide_eq_true_eq] at h1 h2 ⊢
  exact h1.trans h2

/-- C3: `sorted_items` returns the items ordered by a stable multi-key sort:
it is a permutation of the items; the output is pairwise ordered primary
ascending by material name and — through `specSortedOrder` — secondary
descending by count and tertiary descending by the (length, width, height)
triple, with full-key ties kept in input order (stability, expressed for
every ordering relation `r` the input satisfies); and the result is a
deterministic function of the item list, so repeated calls on an unchanged
cut list return the identical order. -/
theorem cutlist_sorted_items_stable_multikey (c : CutList) :
    (CutList.sorted_items c).Perm c.items ∧
    (CutList.sorted_items c).Pairwise (fun a b => materialSortLe a b = true) ∧
    (∀ r : CutListItem → CutListItem → Prop, c.items.Pairwise r →
        (CutList.sorted_items c).Pairwise (specSortedOrder r)) ∧
    (∀ c' : CutList, c'.items = c.items → CutList.sorted_items c' = CutList.sorted_items c) := by
  refine ⟨?_, ?_, ?_, ?_⟩
  · exact (pySort_perm _ _).trans ((pySort_perm _ _).trans (pySort_perm _ _))
  · exact pySort_sorted materialSortLe_total materialSortLe_trans _
  · intro r hr
    exact pySort_pairwise materialSortLe_total materialSortLe_trans
      (pySort_pairwise countSortLe_total countSortLe_trans
        (pySort_pairwise dimsSortLe_total dimsSortLe_trans hr))
  · intro c' h
    simp only [CutList.sorted_items, h]

/-- C3 witness: the theorem applied to a concrete two-item cut list, with the
input-order hypothesis discharged concretely. -/
theorem cutlist_sorted_items_stable_multikey_witness :
    [itemA, itemB].Pairwise (fun a b => a.material = "Wood" ∧ b.material = "Alder") ∧
    ((CutList.sorted_items cutlistW).Perm cutlistW.items ∧
     (CutList.sorted_items cutlistW).Pairwise
        (specSortedOrder (fun a b => a.material = "Wood" ∧ b.material = "Alder"))) := by
  have hp : (cutlistW.items).Pairwise (fun a b => a.material = "Wood" ∧ b.material = "Alder") := by
    simp [cutlistW, itemA, itemB, List.pairwise_cons]
  exact ⟨hp, (cutlist_sorted_items_stable_multikey cutlistW).1,
    (cutlist_sorted_items_stable_multikey cutlistW).2.2.1 _ hp⟩

/-- C10: `sorted_items` does not modify the cut list: in the Python heap
model, the list object the cut list's `items` attribute references is
unchanged by the call (same `CutListItem`s in the same order, hence no item's
names, dimensions, or material changed), and the returned (fresh) object
holds exactly `CutList.sorted_items` of the original items. -/
theorem cutlist_sorted_items_frame (heap : List (List CutListItem)) (ref : ℕ)
    (h : ref < heap.length) :
    ((CutList.sorted_items_heap heap ref).1)[ref]? = heap[ref]? ∧
    (∀ c : CutList, c.items = heap.getD ref [] →
        ((CutList.sorted_items_heap heap ref).1).getD (CutList.sorted_items_heap heap ref).2 []
          = CutList.sorted_items c) := by
  have hne : heap.length ≠ ref := (ne_of_gt h)
  constructor
  · simp only [CutList.sorted_items_heap]
    rw [List.getElem?_set_ne hne, List.getElem?_set_ne hne, List.getElem?_set_ne hne,
      List.getElem?_append_left h]
  · intro c hc
    have hlen : ref < (heap ++ [heap.getD ref []]).length := by
      simp
      omega
    have hlen1 : heap.length < (heap ++ [heap.getD ref []]).length := by
      simp
    simp only [CutList.sorted_items_heap, List.getD_eq_getElem?_getD,
      List.getElem?_concat_length, Option.getD_some]
    rw [List.getElem?_set_self (by simp)]
    rw [List.getElem?_set_self (by simp)]
    rw [List.getElem?_set_self (by simp)]
    simp [CutList.sorted_items, hc, List.getD_eq_getElem?_getD]

/-- C10 witness: the frame theorem applied to a concrete one-cell heap. -/
theorem cutlist_sorted_items_frame_witness :
    (0 : ℕ) < [[itemA, itemB]].length ∧
    ((CutList.sorted_items_heap [[itemA, itemB]] 0).1)[0]? = [[itemA, itemB]][0]? ∧
    ((CutList.sorted_items_heap [[itemA, itemB]] 0).1).getD
        (CutList.sorted_items_heap [[itemA, itemB]] 0).2 []
      = CutList.sorted_items cutlistW := by
  refine ⟨by decide, (cutlist_sorted_items_frame [[itemA, itemB]] 0 (by decide)).1, ?_⟩
  exact (cutlist_sorted_items_frame [[itemA, itemB]] 0 (by decide)).2 cutlistW rfl

/-! ## Theorems — add_body (C2) -/

theorem add_body_loop_eq_none {tol : ℚ} {im : Bool} {mb : MinimalBody} {name : String}
    {items : List CutListItem}
    (hall : ∀ it ∈ items, CutListItem.matches tol it mb im = false) :
    add_body_loop tol im mb name items = none := by
  induction items with
  | nil => rfl
  | cons x xs ih =>
    have hx := hall x (List.mem_cons_self x xs)
    simp only [add_body_loop, hx, Bool.false_eq_true, if_false,
      ih (fun it hit => hall it (List.mem_cons_of_mem x hit)), Option.map_none']

theorem add_body_loop_first_match {tol : ℚ} {im : Bool} {mb : MinimalBody} {name : String} :
    ∀ {items : List CutListItem} {i : ℕ} {it : CutListItem},
      items[i]? = some it → CutListItem.matches tol it mb im = true →
      (∀ (j : ℕ) (jt : CutListItem), j < i → items[j]? = some jt →
        CutListItem.matches tol jt mb im = false) →
      add_body_loop tol im mb name items = some (items.set i (it.add_instance name)) := by
  intro items
  induction items with
  | nil => intro i it h _ _; simp at h
  | cons x xs ih =>
    intro i it hget hm hbefore
    match i with
    | 0 =>
      simp only [List.getElem?_cons_zero, Option.some.injEq] at hget
      subst hget
      simp only [add_body_loop, hm, if_true, List.set_cons_zero]
    | i + 1 =>
      have hx : CutListItem.matches tol x mb im = false :=
        hbefore 0 x (Nat.succ_pos i) (by simp)
      simp only [List.getElem?_cons_succ] at hget
      have hrec := ih hget hm
        (fun j jt hj hjget =>
          hbefore (j + 1) jt (Nat.succ_lt_succ hj)
            (by rw [List.getElem?_cons_succ]; exact hjget))
      simp only [add_body_loop, hx, Bool.false_eq_true, if_false, hrec,
        Option.map_some', List.set_cons_succ]

theorem add_body_loop_preserves {tol : ℚ} {im : Bool} {mb : MinimalBody} {name : String} :
    ∀ {items l' : List CutListItem}, add_body_loop tol im mb name items = some l' →
      ∀ (j : ℕ) (it : CutListItem), items[j]? = some it →
        ∃ it' : CutListItem, l'[j]? = some it' ∧ it'.material = it.material ∧
          it'.dimensions = it.dimensions := by
  intro items
  induction items with
  | nil => intro l' h; simp [add_body_loop] at h
  | cons x xs ih =>
    intro l' hl j it hget
    simp only [add_body_loop] at hl
    by_cases hx : CutListItem.matches tol x mb im = true
    · rw [if_pos hx] at hl
      injection hl with hl
      subst hl
      match j with
      | 0 =>
        simp only [List.getElem?_cons_zero, Option.some.injEq] at hget
        subst hget
        exact ⟨x.add_instance name, by simp, rfl, rfl⟩
      | j + 1 =>
        simp only [List.getElem?_cons_succ] at hget ⊢
        exact ⟨it, hget, rfl, rfl⟩
    · rw [if_neg hx] at hl
      rcases Option.map_eq_some'.mp hl with ⟨l₀, hl₀, rfl⟩
      match j with
      | 0 =>
        simp only [List.getElem?_cons_zero, Option.some.injEq] at hget
        subst hget
        exact ⟨x, by simp, rfl, rfl⟩
      | j + 1 =>
        simp only [List.getElem?_cons_succ] at hget ⊢
        exact ih hl₀ j it hget

/-- C2: `CutList.add_body` folds a solid, non-skipped body into the items by
a linear scan in insertion order: when no item matches (per
`CutListItem.matches`: tolerance-equal dimensions and, unless material
grouping is disabled, equal material name), a fresh `CutListItem` is appended
at the end; the first matching item has the instance name appended, which
increments its count by one; and every pre-existing position keeps its
material and dimensions — so with material grouping disabled an item's
material remains that of the first-seen body of its group. -/
theorem cutlist_add_body_fold (tol : ℚ) (c : CutList) (body : BRepBody) (name : String)
    (mb : MinimalBody)
    (hsolid : body.isSolid = true)
    (hvis : body.isVisible = true ∨ c.ignorehidden = false)
    (hmb : c.minimalBody body = .ok mb) :
    ∃ c' : CutList, CutList.add_body tol c body name = .ok c' ∧
      ((∀ it ∈ c.items, CutListItem.matches tol it mb c.ignorematerial = false) →
          c'.items = c.items ++ [CutListItem.ofBody mb name]) ∧
      (∀ (i : ℕ) (it : CutListItem), c.items[i]? = some it →
          CutListItem.matches tol it mb c.ignorematerial = true →
          (∀ (j : ℕ) (jt : CutListItem), j < i → c.items[j]? = some jt →
            CutListItem.matches tol jt mb c.ignorematerial = false) →
          c'.items = c.items.set i (it.add_instance name) ∧
          (it.add_instance name).count = it.count + 1) ∧
      (∀ (j : ℕ) (it : CutListItem), c.items[j]? = some it →
          ∃ it' : CutListItem, c'.items[j]? = some it' ∧
            it'.material = it.material ∧ it'.dimensions = it.dimensions) := by
  have h1 : ¬ (¬ body.isSolid = true) := by simp [hsolid]
  have h2 : ¬ (¬ body.isVisible = true ∧ c.ignorehidden = true) := by
    rcases hvis with hv | hv
    · simp [hv]
    · simp [hv]
  have hadd : CutList.add_body tol c body name =
      (match add_body_loop tol c.ignorematerial mb name c.items with
        | some items => .ok { c with items := items }
        | none => .ok { c with items := c.items ++ [CutListItem.ofBody mb name] }) := by
    simp only [CutList.add_body]
    rw [if_neg h1, if_neg h2, hmb]
    rfl
  cases hloop : add_body_loop tol c.ignorematerial mb name c.items with
  | some items' =>
    refine ⟨{ c with items := items' }, by rw [hadd, hloop], ?_, ?_, ?_⟩
    · intro hall
      rw [add_body_loop_eq_none hall] at hloop
      exact absurd hloop (by simp)
    · intro i it hget hm hbefore
      have hfirst :=
        @add_body_loop_first_match tol c.ignorematerial mb name _ _ _ hget hm hbefore
      rw [hfirst] at hloop
      injection hloop with hloop
      refine ⟨by rw [← hloop], ?_⟩
      simp [CutListItem.add_instance, CutListItem.count]
    · intro j it hget
      exact add_body_loop_preserves hloop j it hget
  | none =>
    refine ⟨{ c with items := c.items ++ [CutListItem.ofBody mb name] },
      by rw [hadd, hloop], ?_, ?_, ?_⟩
    · intro _
      rfl
    · intro i it hget hm hbefore
      rw [@add_body_loop_first_match tol c.ignorematerial mb name _ _ _ hget hm hbefore]
        at hloop
      exact absurd hloop (by simp)
    · intro j it hget
      have hj : j < c.items.length := by
        by_contra hge
        rw [List.getElem?_eq_none (Nat.le_of_not_lt hge)] at hget
        exact absurd hget (by simp)
      refine ⟨it, ?_, rfl, rfl⟩
      rw [List.getElem?_append_left hj]
      exact hget

/-- C2 witness: adding a solid, visible body to a concrete empty
axis-aligned cut list. -/
theorem cutlist_add_body_fold_witness :
    bodyWithLineEdge.isSolid = true ∧
    (∃ c' : CutList, CutList.add_body 1 cutlistAA bodyWithLineEdge "w" = .ok c' ∧
      ((∀ it ∈ cutlistAA.items,
          CutListItem.matches 1 it (MinimalBody.of bodyWithLineEdge) cutlistAA.ignorematerial
            = false) →
          c'.items
            = cutlistAA.items ++ [CutListItem.ofBody (MinimalBody.of bodyWithLineEdge) "w"]) ∧
      (∀ (i : ℕ) (it : CutListItem), cutlistAA.items[i]? = some it →
          CutListItem.matches 1 it (MinimalBody.of bodyWithLineEdge) cutlistAA.ignorematerial
            = true →
          (∀ (j : ℕ) (jt : CutListItem), j < i → cutlistAA.items[j]? = some jt →
            CutListItem.matches 1 jt (MinimalBody.of bodyWithLineEdge) cutlistAA.ignorematerial
              = false) →
          c'.items = cutlistAA.items.set i (it.add_instance "w") ∧
          (it.add_instance "w").count = it.count + 1) ∧
      (∀ (j : ℕ) (it : CutListItem), cutlistAA.items[j]? = some it →
          ∃ it' : CutListItem, c'.items[j]? = some it' ∧
            it'.material = it.material ∧ it'.dimensions = it.dimensions)) :=
  ⟨rfl, cutlist_add_body_fold 1 cutlistAA bodyWithLineEdge "w"
    (MinimalBody.of bodyWithLineEdge) rfl (Or.inl rfl) rfl⟩

/-! ## Theorems — face selection (C6) -/

theorem largest_fold_spec (ce : Finset ℕ) :
    ∀ (faces : List BRepFace) (acc : Option BRepFace),
      (faces.foldl (largest_face_step ce) acc = none ↔
        (acc = none ∧ ∀ f ∈ faces, is_planar_face f ce = false)) ∧
      (∀ f : BRepFace, faces.foldl (largest_face_step ce) acc = some f →
        ((f ∈ faces ∧ is_planar_face f ce = true) ∨ acc = some f) ∧
        (∀ g ∈ faces, is_planar_face g ce = true → g.area ≤ f.area) ∧
        (∀ a : BRepFace, acc = some a → a.area ≤ f.area)) := by
  intro faces
  induction faces with
  | nil =>
    intro acc
    refine ⟨by simp, ?_⟩
    intro f hf
    simp only [List.foldl_nil] at hf
    refine ⟨Or.inr hf, by simp, ?_⟩
    intro a ha
    rw [hf] at ha
    injection ha with ha
    rw [ha]
  | cons f0 fs ih =>
    intro acc
    by_cases hpf : is_planar_face f0 ce = true
    · -- f0 qualifies: the accumulator is updated
      cases acc with
      | none =>
        have hstep : largest_face_step ce none f0 = some f0 := by
          simp [largest_face_step, hpf]
        constructor
        · rw [List.foldl_cons, hstep, (ih (some f0)).1]
          simp [hpf]
        · intro f hf
          rw [List.foldl_cons, hstep] at hf
          have h2 := (ih (some f0)).2 f hf
          have hf0le : f0.area ≤ f.area := h2.2.2 f0 rfl
          constructor
          · rcases h2.1 with ⟨hmem, hpl⟩ | heq
            · exact Or.inl ⟨List.mem_cons_of_mem f0 hmem, hpl⟩
            · injection heq with heq
              exact Or.inl ⟨heq ▸ List.mem_cons_self f0 fs, heq ▸ hpf⟩
          · refine ⟨?_, by intro a ha; exact absurd ha (by simp)⟩
            intro g hg hgpl
            rcases List.mem_cons.mp hg with rfl | hg'
            · exact hf0le
            · exact h2.2.1 g hg' hgpl
      | some g0 =>
        by_cases hgt : f0.area > g0.area
        · have hstep : largest_face_step ce (some g0) f0 = some f0 := by
            simp [largest_face_step, hpf, hgt]
          constructor
          · rw [List.foldl_cons, hstep, (ih (some f0)).1]
            simp [hpf]
          · intro f hf
            rw [List.foldl_cons, hstep] at hf
            have h2 := (ih (some f0)).2 f hf
            have hf0le : f0.area ≤ f.area := h2.2.2 f0 rfl
            constructor
            · rcases h2.1 with ⟨hmem, hpl⟩ | heq
              · exact Or.inl ⟨List.mem_cons_of_mem f0 hmem, hpl⟩
              · injection heq with heq
                exact Or.inl ⟨heq ▸ List.mem_cons_self f0 fs, heq ▸ hpf⟩
            · refine ⟨?_, ?_⟩
              · intro g hg hgpl
                rcases List.mem_cons.mp hg with rfl | hg'
                · exact hf0le
                · exact h2.2.1 g hg' hgpl
              · intro a ha
                injection ha with ha
                exact le_trans (le_of_lt (ha ▸ hgt)) hf0le
        · have hstep : largest_face_step ce (some g0) f0 = some g0 := by
            simp [largest_face_step, hpf, hgt]
          constructor
          · rw [List.foldl_cons, hstep, (ih (some g0)).1]
            simp
          · intro f hf
            rw [List.foldl_cons, hstep] at hf
            have h2 := (ih (some g0)).2 f hf
            have hg0le : g0.area ≤ f.area := h2.2.2 g0 rfl
            constructor
            · rcases h2.1 with ⟨hmem, hpl⟩ | heq
              · exact Or.inl ⟨List.mem_cons_of_mem f0 hmem, hpl⟩
              · exact Or.inr heq
            · refine ⟨?_, ?_⟩
              · intro g hg hgpl
                rcases List.mem_cons.mp hg with rfl | hg'
                · exact le_trans (le_of_not_lt hgt) hg0le
                · exact h2.2.1 g hg' hgpl
              · intro a ha
                injection ha with ha
                exact ha ▸ hg0le
    · -- f0 is skipped
      have hstep : largest_face_step ce acc f0 = acc := by
        simp [largest_face_step, hpf]
      have hpf' : is_planar_face f0 ce = false := by
        cases hb : is_planar_face f0 ce
        · rfl
        · exact absurd hb hpf
      constructor
      · rw [List.foldl_cons, hstep, (ih acc).1]
        simp [hpf']
      · intro f hf
        rw [List.foldl_cons, hstep] at hf
        have h2 := (ih acc).2 f hf
        constructor
        · rcases h2.1 with ⟨hmem, hpl⟩ | heq
          · exact Or.inl ⟨List.mem_cons_of_mem f0 hmem, hpl⟩
          · exact Or.inr heq
        · refine ⟨?_, h2.2.2⟩
          intro g hg hgpl
          rcases List.mem_cons.mp hg with rfl | hg'
          · exact absurd hgpl (by simp [hpf'])
          · exact h2.2.1 g hg' hgpl

/-- C6: `find_largest_planar_convex_face` returns `None` exactly when no face
of the solid qualifies (surface type planar and every outer-loop edge a
member, by stable edge identity, of the solid's convex-edge set, which is
what `is_planar_face` tests), and any returned face is a qualifying face of
the solid of maximum area among the qualifying faces. -/
theorem find_largest_planar_convex_face_spec (body : BRepBody) :
    (find_largest_planar_convex_face body = none ↔
      ∀ f ∈ body.faces, is_planar_face f (edgeset body.convexEdges) = false) ∧
    (∀ f : BRepFace, find_largest_planar_convex_face body = some f →
      f ∈ body.faces ∧ is_planar_face f (edgeset body.convexEdges) = true ∧
      ∀ g ∈ body.faces, is_planar_face g (edgeset body.convexEdges) = true →
        g.area ≤ f.area) := by
  have h := largest_fold_spec (edgeset body.convexEdges) body.faces none
  constructor
  · rw [show find_largest_planar_convex_face body
        = body.faces.foldl (largest_face_step (edgeset body.convexEdges)) none from rfl, h.1]
    simp
  · intro f hf
    have h2 := h.2 f hf
    rcases h2.1 with ⟨hmem, hpl⟩ | habs
    · exact ⟨hmem, hpl, h2.2.1⟩
    · exact absurd habs (by simp)

/-- C6 witness: the specification applied to a concrete body whose single
planar face is bounded by convex edges. -/
theorem find_largest_planar_convex_face_spec_witness :
    planarFaceNoOrientable ∈ bodyNoOrientableEdge.faces ∧
    is_planar_face planarFaceNoOrientable (edgeset bodyNoOrientableEdge.convexEdges) = true ∧
    ∀ g ∈ bodyNoOrientableEdge.faces,
      is_planar_face g (edgeset bodyNoOrientableEdge.convexEdges) = true →
        g.area ≤ planarFaceNoOrientable.area :=
  (find_largest_planar_convex_face_spec bodyNoOrientableEdge).2 planarFaceNoOrientable rfl

/-! ## Theorems — edge orientation (C9) -/

theorem linear_edge_is_orientable (e : BRepEdge) (h : is_linear_edge e = true) :
    is_orientable_edge e = true := by
  simp only [is_linear_edge, List.mem_cons, List.not_mem_nil, or_false,
    decide_eq_true_eq] at h
  simp only [is_orientable_edge, List.mem_cons, List.not_mem_nil, or_false,
    decide_eq_true_eq]
  tauto

theorem longest_fold_invariant :
    ∀ (edges : List BRepEdge) (acc : Option BRepEdge × Option BRepEdge),
      (∀ e : BRepEdge, acc.1 = some e → is_linear_edge e = true) →
      (∀ e : BRepEdge, acc.2 = some e → is_orientable_edge e = true) →
      (∀ e : BRepEdge, (edges.foldl longest_edge_step acc).1 = some e →
          is_linear_edge e = true) ∧
      (∀ e : BRepEdge, (edges.foldl longest_edge_step acc).2 = some e →
          is_orientable_edge e = true) := by
  intro edges
  induction edges with
  | nil =>
    intro acc h1 h2
    exact ⟨by simpa using h1, by simpa using h2⟩
  | cons e0 es ih =>
    intro acc h1 h2
    rw [List.foldl_cons]
    refine ih (longest_edge_step acc e0) ?_ ?_
    · intro e he
      simp only [longest_edge_step] at he
      by_cases hlin : is_linear_edge e0 = true
      · rw [if_pos hlin] at he
        cases hacc : acc.1 with
        | none =>
          rw [hacc] at he
          simp only at he
          injection he with he
          exact he ▸ hlin
        | some l =>
          rw [hacc] at he
          simp only at he
          by_cases hgt : e0.length > l.length
          · rw [if_pos hgt] at he
            injection he with he
            exact he ▸ hlin
          · rw [if_neg hgt] at he
            exact h1 e (hacc ▸ he)
      · rw [if_neg hlin] at he
        by_cases hor : is_orientable_edge e0 = true
        · rw [if_pos hor] at he
          cases hacc : acc.2 with
          | none =>
            rw [hacc] at he
            simp only at he
            exact h1 e he
          | some l =>
            rw [hacc] at he
            simp only at he
            by_cases hgt : e0.length > l.length
            · rw [if_pos hgt] at he
              exact h1 e he
            · rw [if_neg hgt] at he
              exact h1 e he
        · rw [if_neg hor] at he
          exact h1 e he
    · intro e he
      simp only [longest_edge_step] at he
      by_cases hlin : is_linear_edge e0 = true
      · rw [if_pos hlin] at he
        cases hacc : acc.1 with
        | none =>
          rw [hacc] at he
          simp only at he
          exact h2 e he
        | some l =>
          rw [hacc] at he
          simp only at he
          by_cases hgt : e0.length > l.length
          · rw [if_pos hgt] at he
            exact h2 e he
          · rw [if_neg hgt] at he
            exact h2 e he
      · rw [if_neg hlin] at he
        by_cases hor : is_orientable_edge e0 = true
        · rw [if_pos hor] at he
          cases hacc : acc.2 with
          | none =>
            rw [hacc] at he
            simp only at he
            injection he with he
            exact he ▸ hor
          | some l =>
            rw [hacc] at he
            simp only at he
            by_cases hgt : e0.length > l.length
            · rw [if_pos hgt] at he
              injection he with he
              exact he ▸ hor
            · rw [if_neg hgt] at he
              exact h2 e (hacc ▸ he)
        · rw [if_neg hor] at he
          exact h2 e he

theorem get_edge_orientation_of_orientable (e : BRepEdge)
    (h : is_orientable_edge e = true) :
    ∃ v : Vec3, get_edge_orientation e = Except.ok v := by
  cases e with
  | mk tid len sv ev geom =>
    cases geom <;>
      simp_all [is_orientable_edge, Curve3D.curveType, get_edge_orientation,
        _orientable_curve_types, _get_arc3d_orientation, _get_circle3d_orientation,
        _get_ellipse3d_orientation, _get_ellipticalarc3d_orientation,
        _get_infiniteline3d_orientation, _get_line3d_orientation]

/-- C9: every edge returned by `find_longest_orientable_edge` has a curve
type present in the orientation dispatch table, and `get_edge_orientation`
succeeds on it — the raising branch (no orientation heuristic) is unreachable
for such edges, and edges of unsupported curve types are skipped rather than
estimated. -/
theorem find_longest_orientable_edge_orientable (face : BRepFace) (e : BRepEdge)
    (h : find_longest_orientable_edge face = some e) :
    is_orientable_edge e = true ∧ ∃ v : Vec3, get_edge_orientation e = Except.ok v := by
  have hinv := longest_fold_invariant face.edges (none, none)
    (by intro e h; exact absurd h (by simp))
    (by intro e h; exact absurd h (by simp))
  simp only [find_longest_orientable_edge] at h
  have hor : is_orientable_edge e = true := by
    cases hacc : (face.edges.foldl longest_edge_step (none, none)).1 with
    | some l =>
      rw [hacc] at h
      injection h with h
      exact linear_edge_is_orientable e (hinv.1 e (h ▸ hacc))
    | none =>
      rw [hacc] at h
      exact hinv.2 e h
  exact ⟨hor, get_edge_orientation_of_orientable e hor⟩

/-- C9 witness: the theorem applied to a concrete face with one line edge. -/
theorem find_longest_orientable_edge_orientable_witness :
    is_orientable_edge lineEdge = true ∧
    ∃ v : Vec3, get_edge_orientation lineEdge = Except.ok v :=
  find_longest_orientable_edge_orientable faceWithLineEdge lineEdge rfl

/-! ## Theorems — cross-orientation frame (C4) and get_minimal_body (C1) -/

/-- C4 counterexample: for the unit orientation (1,0,0) perpendicular to the
unit normal (0,0,1), the code's `crossOrientation = normalize(orientation ×
normal)` gives orientation × crossOrientation = (0,0,-1) ≠ normal, so the
frame (orientation, crossOrientation, normal) is not right-handed. -/
theorem cross_orientation_not_right_handed :
    Vec3.normSq ⟨1, 0, 0⟩ = 1 ∧ Vec3.normSq ⟨0, 0, 1⟩ = 1 ∧
    Vec3.dot ⟨1, 0, 0⟩ ⟨0, 0, 1⟩ = 0 ∧
    Vec3.crossProduct ⟨1, 0, 0⟩ ((Vec3.crossProduct ⟨1, 0, 0⟩ ⟨0, 0, 1⟩).normalize)
      ≠ (⟨0, 0, 1⟩ : Vec3) := by
  refine ⟨by norm_num [Vec3.normSq], by norm_num [Vec3.normSq],
    by norm_num [Vec3.dot], ?_⟩
  intro h
  have hz := congrArg Vec3.z h
  simp only [Vec3.crossProduct, Vec3.normalize, Vec3.normSq, Vec3.smul] at hz
  norm_num [Real.sqrt_one] at hz

theorem vec3_triple_product (u n : Vec3) :
    Vec3.crossProduct u (Vec3.crossProduct u n) =
      ⟨u.x * (u.dot n) - n.x * u.normSq,
       u.y * (u.dot n) - n.y * u.normSq,
       u.z * (u.dot n) - n.z * u.normSq⟩ := by
  cases u with
  | mk ux uy uz =>
    cases n with
    | mk nx ny nz =>
      simp only [Vec3.crossProduct, Vec3.dot, Vec3.normSq, Vec3.mk.injEq]
      refine ⟨by ring, by ring, by ring⟩

theorem vec3_cross_normSq (u n : Vec3) :
    (Vec3.crossProduct u n).normSq = u.normSq * n.normSq - (u.dot n) * (u.dot n) := by
  cases u with
  | mk ux uy uz =>
    cases n with
    | mk nx ny nz =>
      simp only [Vec3.crossProduct, Vec3.dot, Vec3.normSq]
      ring

/-- C4 (amended): for every unit orientation vector perpendicular to the unit
face normal, `crossOrientation = normalize(orientation × normal)` completes a
left-handed frame: orientation × crossOrientation = −normal (the bounding box
of the aligned copy is unaffected, but the frame is not right-handed). -/
theorem cross_orientation_left_handed (u n : Vec3)
    (hu : u.normSq = 1) (hn : n.normSq = 1) (hun : u.dot n = 0) :
    Vec3.crossProduct u ((Vec3.crossProduct u n).normalize) = n.neg := by
  have hcross : (Vec3.crossProduct u n).normSq = 1 := by
    rw [vec3_cross_normSq, hu, hn, hun]
    ring
  have hnormalize : (Vec3.crossProduct u n).normalize = Vec3.crossProduct u n := by
    rw [Vec3.normalize, hcross, Real.sqrt_one]
    cases hv : Vec3.crossProduct u n with
    | mk vx vy vz => simp [Vec3.smul]
  rw [hnormalize, vec3_triple_product, hun, hu]
  cases n with
  | mk nx ny nz =>
    simp only [Vec3.neg, Vec3.mk.injEq]
    refine ⟨by ring, by ring, by ring⟩

/-- C4 witness: the amended theorem applied at the concrete frame used in the
counterexample. -/
theorem cross_orientation_left_handed_witness :
    Vec3.crossProduct ⟨1, 0, 0⟩ ((Vec3.crossProduct ⟨1, 0, 0⟩ ⟨0, 0, 1⟩).normalize)
      = Vec3.neg ⟨0, 0, 1⟩ :=
  cross_orientation_left_handed ⟨1, 0, 0⟩ ⟨0, 0, 1⟩
    (by norm_num [Vec3.normSq]) (by norm_num [Vec3.normSq]) (by norm_num [Vec3.dot])

/-- C1: on a body whose largest planar convex face has no orientable edge,
`get_minimal_body` reads the local `target_x` before its assignment, so the
call raises `UnboundLocalError` instead of using the world X axis as the
default orientation and returning the transformed bounding box. -/
theorem get_minimal_body_unbound_local :
    get_minimal_body bodyNoOrientableEdge = .error (.unboundLocalError "target_x") := rfl

/-! ## Theorems — CutList.add error taxonomy (C8) -/

theorem get_edge_orientation_error_not_cannotAdd (ed : BRepEdge) (e : PyErr)
    (h : get_edge_orientation ed = .error e) : ∀ t, e ≠ PyErr.cannotAddObject t := by
  intro t
  cases ed with
  | mk tid len sv ev geom =>
    cases geom <;>
      simp_all [get_edge_orientation, Curve3D.curveType, _orientable_curve_types,
        _get_arc3d_orientation, _get_circle3d_orientation, _get_ellipse3d_orientation,
        _get_ellipticalarc3d_orientation, _get_infiniteline3d_orientation,
        _get_line3d_orientation] <;>
      simp [← h]

theorem get_minimal_body_error_not_cannotAdd (body : BRepBody) (e : PyErr)
    (h : get_minimal_body body = .error e) : ∀ t, e ≠ PyErr.cannotAddObject t := by
  intro t
  simp only [get_minimal_body] at h
  cases hf : find_largest_planar_convex_face body with
  | none =>
    rw [hf] at h
    exact absurd h (by simp)
  | some face =>
    rw [hf] at h
    simp only at h
    cases hl : find_longest_orientable_edge face with
    | none =>
      rw [hl] at h
      simp only [Except.error.injEq] at h
      simp [← h]
    | some edge =>
      rw [hl] at h
      simp only at h
      cases ho : get_edge_orientation edge with
      | error e' =>
        rw [ho] at h
        simp only [bind, Except.bind, Except.error.injEq] at h
        exact h ▸ get_edge_orientation_error_not_cannotAdd edge e' ho t
      | ok v =>
        rw [ho] at h
        simp only [bind, Except.bind] at h
        exact absurd h (by simp)

theorem minimalBody_error_not_cannotAdd (c : CutList) (body : BRepBody) (e : PyErr)
    (h : c.minimalBody body = .error e) : ∀ t, e ≠ PyErr.cannotAddObject t := by
  intro t
  simp only [CutList.minimalBody] at h
  by_cases ha : c.axisaligned = true
  · rw [if_pos ha] at h
    exact absurd h (by simp)
  · rw [if_neg ha] at h
    exact get_minimal_body_error_not_cannotAdd body e h t

theorem add_body_error_not_cannotAdd (tol : ℚ) (c : CutList) (body : BRepBody)
    (name : String) (e : PyErr) (h : CutList.add_body tol c body name = .error e) :
    ∀ t, e ≠ PyErr.cannotAddObject t := by
  intro t
  simp only [CutList.add_body] at h
  by_cases h1 : ¬ body.isSolid = true
  · rw [if_pos h1] at h
    exact absurd h (by simp)
  · rw [if_neg h1] at h
    by_cases h2 : (¬ body.isVisible = true ∧ c.ignorehidden = true)
    · rw [if_pos h2] at h
      exact absurd h (by simp)
    · rw [if_neg h2] at h
      cases hm : c.minimalBody body with
      | error e' =>
        rw [hm] at h
        simp only [bind, Except.bind, Except.error.injEq] at h
        exact h ▸ minimalBody_error_not_cannotAdd c body e' hm t
      | ok mb =>
        rw [hm] at h
        simp only [bind, Except.bind] at h
        cases hloop : add_body_loop tol c.ignorematerial mb name c.items with
        | some items' =>
          rw [hloop] at h
          exact absurd h (by simp)
        | none =>
          rw [hloop] at h
          exact absurd h (by simp)

theorem foldlM_except_error {α σ ε : Type _} (P : ε → Prop) (f : σ → α → Except ε σ) :
    ∀ (l : List α) (s : σ) (e : ε),
      (∀ (s' : σ) (x : α), x ∈ l → ∀ e' : ε, f s' x = .error e' → P e') →
      l.foldlM f s = .error e → P e := by
  intro l
  induction l with
  | nil =>
    intro s e _ h
    exact absurd h (by simp [List.foldlM_nil, pure, Except.pure])
  | cons x xs ih =>
    intro s e hall h
    rw [List.foldlM_cons] at h
    cases hf : f s x with
    | error e' =>
      rw [hf] at h
      simp only [bind, Except.bind, Except.error.injEq] at h
      exact h ▸ hall s x (List.mem_cons_self x xs) e' hf
    | ok s' =>
      rw [hf] at h
      simp only [bind, Except.bind] at h
      exact ih s' e (fun s'' y hy => hall s'' y (List.mem_cons_of_mem x hy)) h

theorem add_occurrence_error_not_cannotAdd :
    ∀ (k : ℕ) (o : Occurrence), sizeOf o ≤ k →
      ∀ (tol : ℚ) (c : CutList) (name : String) (e : PyErr),
        CutList.add tol c (.occurrence o) name = .error e →
        ∀ t, e ≠ PyErr.cannotAddObject t := by
  intro k
  induction k with
  | zero =>
    intro o ho
    exfalso
    cases o with
    | mk comp r bs cs =>
      simp only [Occurrence.mk.sizeOf_spec] at ho
      omega
  | succ k ih =>
    intro o ho tol c name e hadd t
    rw [CutList.add] at hadd
    by_cases href : (o.isReferencedComponent && c.ignoreexternal) = true
    · rw [if_pos href] at hadd
      exact absurd hadd (by simp)
    · rw [if_neg href] at hadd
      cases hb : o.bRepBodies.foldlM
          (fun (s : CutList) b =>
            s.add_body tol b (s.joinname [name, o.component.name, b.name])) c with
      | error e' =>
        rw [hb] at hadd
        simp only [bind, Except.bind, Except.error.injEq] at hadd
        refine hadd ▸ foldlM_except_error (fun e'' => e'' ≠ PyErr.cannotAddObject t)
          _ o.bRepBodies c e' ?_ hb
        intro s' b _ e'' hbody
        exact add_body_error_not_cannotAdd tol s' b _ e'' hbody t
      | ok c1 =>
        rw [hb] at hadd
        simp only [bind, Except.bind] at hadd
        refine foldlM_except_error (fun e'' => e'' ≠ PyErr.cannotAddObject t)
          _ o.childOccurrences.attach c1 e ?_ hadd
        intro s' child hchild e'' hrec
        have hlt : sizeOf child.1 < sizeOf o := by
          have hmem := List.sizeOf_lt_of_mem child.2
          cases o with
          | mk comp r bs cs =>
            simp only [Occurrence.childOccurrences] at hmem
            simp only [Occurrence.mk.sizeOf_spec]
            omega
        exact ih child.1 (by omega) tol s' _ e'' hrec t

theorem add_component_error_not_cannotAdd (tol : ℚ) (c : CutList) (comp : Component)
    (name : String) (e : PyErr)
    (hadd : CutList.add tol c (.component comp) name = .error e) :
    ∀ t, e ≠ PyErr.cannotAddObject t := by
  intro t
  rw [CutList.add] at hadd
  cases hb : comp.bRepBodies.foldlM
      (fun (s : CutList) b =>
        s.add_body tol b (s.joinname [name, comp.name, b.name])) c with
  | error e' =>
    rw [hb] at hadd
    simp only [bind, Except.bind, Except.error.injEq] at hadd
    refine hadd ▸ foldlM_except_error (fun e'' => e'' ≠ PyErr.cannotAddObject t)
      _ comp.bRepBodies c e' ?_ hb
    intro s' b _ e'' hbody
    exact add_body_error_not_cannotAdd tol s' b _ e'' hbody t
  | ok c1 =>
    rw [hb] at hadd
    simp only [bind, Except.bind] at hadd
    refine foldlM_except_error (fun e'' => e'' ≠ PyErr.cannotAddObject t)
      _ comp.occurrences.attach c1 e ?_ hadd
    intro s' occ hocc e'' hrec
    exact add_occurrence_error_not_cannotAdd (sizeOf occ.1) occ.1 (le_refl _)
      tol s' _ e'' hrec t

/-- C8: `CutList.add` raises the unsupported-kind `ValueError` if and only if
the entity is not a Body, Occurrence, or Component; for the three supported
kinds it never raises this error (it processes the entity, recursing into
bodies and child occurrences for occurrences and components), and for an
unsupported kind the error identifies the entity's `objectType`. -/
theorem cutlist_add_unsupported_kind (tol : ℚ) (c : CutList) (obj : Entity)
    (name : String) :
    ((∃ t, CutList.add tol c obj name = .error (.cannotAddObject t)) ↔
      (∃ t, obj = Entity.other t)) ∧
    (∀ t, obj = Entity.other t →
      CutList.add tol c obj name = .error (.cannotAddObject t)) := by
  have hother : ∀ t, CutList.add tol c (.other t) name = .error (.cannotAddObject t) := by
    intro t
    rw [CutList.add]
  constructor
  · constructor
    · rintro ⟨t, ht⟩
      cases obj with
      | body b =>
        rw [CutList.add] at ht
        exact absurd rfl (add_body_error_not_cannotAdd tol c b _ _ ht t)
      | occurrence o =>
        exact absurd rfl
          (add_occurrence_error_not_cannotAdd (sizeOf o) o (le_refl _) tol c name _ ht t)
      | component comp =>
        exact absurd rfl (add_component_error_not_cannotAdd tol c comp name _ ht t)
      | other t' =>
        exact ⟨t', rfl⟩
    · rintro ⟨t, rfl⟩
      exact ⟨t, hother t⟩
  · rintro t rfl
    exact hother t

/-- C8 witness: the characterization applied to a concrete unsupported
entity. -/
theorem cutlist_add_unsupported_kind_witness :
    CutList.add 1 cutlistW (Entity.other "adsk::core::Base") "" =
      .error (.cannotAddObject "adsk::core::Base") :=
  (cutlist_add_unsupported_kind 1 cutlistW (Entity.other "adsk::core::Base") "").2
    "adsk::core::Base" rfl

end ExportCutlist
